import Mathlib

/-!
Verification development for the twitch-recorder program.

Shallow embedding of the program's core modules:
* `stream.py`   — liveness probe and the two timed polling loops
                  (`is_live`, `wait_until_live`, `wait_for_reconnect`);
* `recorder.py` — the recording session loop (`RecordingSession.record_segment`
                  and `RecordingSession.run`);
* `postprocess.py` — consolidation (`remux_single`, `merge_segments`,
                  `cleanup`, `postprocess`).

External effects are made explicit: the filesystem is a map from path
strings to an optional byte size (`none` = file absent), subprocess
invocations (streamlink, ffmpeg) are oracle parameters describing the
tool's observable result, and `time.sleep` is tracked as elapsed time.
-/

/-- A filesystem snapshot: maps a path to `some size` when the file exists
(with that byte size), `none` when it is absent. -/
def FS : Type := String → Option Nat

/-- `path.exists() and path.stat().st_size > 0` — the verification check used
throughout the program. -/
def existsPos (fs : FS) (p : String) : Bool :=
  match fs p with
  | some n => decide (0 < n)
  | none => false

/-- `Path.unlink(missing_ok=True)` — remove a file if present. -/
def unlink (fs : FS) (p : String) : FS :=
  fun q => if q = p then none else fs q

/-! ## stream.py -/

/-- `is_live` (stream.py lines 15–30), with the streamlink lookup abstracted:
`lookup` is the result of `session.streams(url)` — `Except.error` when the
lookup raised (NoPluginError, PluginError or any other exception, all caught),
`Except.ok streams` the list of available stream-quality names.  The body
returns `quality in streams or "best" in streams`; every exception branch
returns `False`. -/
def is_live (lookup : Except String (List String)) (quality : String) : Bool :=
  match lookup with
  | Except.ok streams => streams.contains quality || streams.contains "best"
  | Except.error _ => false

/-- Loop body of `wait_until_live` (stream.py lines 49–56).  `probe k` is the
result of the `k`-th call to `is_live` (0-based); `waited` is the loop
variable, `ts` accumulates the elapsed time at each probe.  Mirrors:
`while waited < timeout: if is_live(...): return True; sleep(interval);
waited += interval` — then `return False`. -/
def waitUntilLiveAux (probe : Nat → Bool) (timeout interval : Int)
    (hpos : 0 < interval) (waited : Int) (ts : List Int) : Bool × List Int :=
  if _h : waited < timeout then
    if probe ts.length then (true, ts ++ [waited])
    else waitUntilLiveAux probe timeout interval hpos (waited + interval) (ts ++ [waited])
  else (false, ts)
termination_by (timeout - waited).toNat
decreasing_by omega

/-- `wait_until_live` (stream.py lines 33–59): start with `waited = 0`, probe
immediately, sleep `interval` between probes. -/
def wait_until_live (probe : Nat → Bool) (timeout interval : Int)
    (hpos : 0 < interval) : Bool × List Int :=
  waitUntilLiveAux probe timeout interval hpos 0 []

/-- Loop body of `wait_for_reconnect` (stream.py lines 76–83).  Mirrors:
`while waited < grace_period: sleep(check_interval); waited += check_interval;
if is_live(...): return True` — then `return False`.  Note the sleep happens
before the probe, so the probe at index `k` occurs at time `(k+1) * check_interval`. -/
def waitForReconnectAux (probe : Nat → Bool) (grace_period check_interval : Int)
    (hpos : 0 < check_interval) (waited : Int) (ts : List Int) : Bool × List Int :=
  if _h : waited < grace_period then
    if probe ts.length then (true, ts ++ [waited + check_interval])
    else waitForReconnectAux probe grace_period check_interval hpos
      (waited + check_interval) (ts ++ [waited + check_interval])
  else (false, ts)
termination_by (grace_period - waited).toNat
decreasing_by omega

/-- `wait_for_reconnect` (stream.py lines 62–86). -/
def wait_for_reconnect (probe : Nat → Bool) (grace_period check_interval : Int)
    (hpos : 0 < check_interval) : Bool × List Int :=
  waitForReconnectAux probe grace_period check_interval hpos 0 []

/-! ## Helper lemmas for the polling loops -/

/-- Indexing into a list extended by one element, when every earlier index
already follows the schedule `f`. -/
lemma snoc_getElem {α : Type} (ts : List α) (x : α) (f : Nat → α)
    (hts : ∀ j, j < ts.length → ts[j]? = some (f j)) (hx : x = f ts.length) :
    ∀ j, j < (ts ++ [x]).length → (ts ++ [x])[j]? = some (f j) := by
  intro j hj
  simp only [List.length_append, List.length_cons, List.length_nil] at hj
  rw [List.getElem?_append]
  rcases Nat.lt_succ_iff_lt_or_eq.mp (by omega : j < ts.length + 1) with hj' | hj'
  · rw [if_pos hj']; exact hts j hj'
  · subst hj'; simp [hx]

/-- Invariant of the `wait_until_live` loop: starting from elapsed time
`waited = |ts| * interval` with recorded probe times `0, i, 2i, …`, the loop
(1) records probe `j` at time `j * interval`, (2) returns `true` only when the
last probe it made succeeded and all earlier probes of this loop failed, and
(3) returns `false` only when `timeout` has accumulated with every probe of
this loop failing. -/
lemma waitUntilLiveAux_spec (probe : Nat → Bool) (T i : Int) (h : 0 < i) :
    ∀ (waited : Int) (ts : List Int),
    waited = (ts.length : Int) * i →
    (∀ j, j < ts.length → ts[j]? = some ((j : Int) * i)) →
    (∀ j, j < ((waitUntilLiveAux probe T i h waited ts).2).length →
        ((waitUntilLiveAux probe T i h waited ts).2)[j]? = some ((j : Int) * i)) ∧
    ((waitUntilLiveAux probe T i h waited ts).1 = true →
        0 < ((waitUntilLiveAux probe T i h waited ts).2).length ∧
        probe (((waitUntilLiveAux probe T i h waited ts).2).length - 1) = true ∧
        ∀ j, ts.length ≤ j → j + 1 < ((waitUntilLiveAux probe T i h waited ts).2).length →
          probe j = false) ∧
    ((waitUntilLiveAux probe T i h waited ts).1 = false →
        T ≤ (((waitUntilLiveAux probe T i h waited ts).2).length : Int) * i ∧
        ∀ j, ts.length ≤ j → j < ((waitUntilLiveAux probe T i h waited ts).2).length →
          probe j = false) := by
  intro waited ts
  induction waited, ts using waitUntilLiveAux.induct probe T i h with
  | case1 waited ts hlt hp =>
    intro hw hts
    rw [waitUntilLiveAux]
    rw [dif_pos hlt, if_pos hp]
    refine ⟨?_, ?_, ?_⟩
    · exact snoc_getElem ts waited (fun j => (j : Int) * i) hts hw
    · intro _
      refine ⟨by simp, ?_, ?_⟩
      · simpa using hp
      · intro j hj1 hj2
        simp only [List.length_append, List.length_cons, List.length_nil] at hj2
        omega
    · intro hfalse; simp at hfalse
  | case2 waited ts hlt hp ih =>
    intro hw hts
    rw [waitUntilLiveAux]
    rw [dif_pos hlt, if_neg hp]
    have hw' : waited + i = ((ts ++ [waited]).length : Int) * i := by
      simp only [List.length_append, List.length_cons, List.length_nil]
      push_cast
      linarith [hw]
    have hts' := snoc_getElem ts waited (fun j => (j : Int) * i) hts hw
    obtain ⟨ih1, ih2, ih3⟩ := ih hw' hts'
    refine ⟨ih1, ?_, ?_⟩
    · intro htrue
      obtain ⟨a, b, c⟩ := ih2 htrue
      refine ⟨a, b, ?_⟩
      intro j hj1 hj2
      rcases Nat.eq_or_lt_of_le hj1 with hj' | hj'
      · subst hj'; simpa using hp
      · exact c j (by simp; omega) hj2
    · intro hfalse
      obtain ⟨a, b⟩ := ih3 hfalse
      refine ⟨a, ?_⟩
      intro j hj1 hj2
      rcases Nat.eq_or_lt_of_le hj1 with hj' | hj'
      · subst hj'; simpa using hp
      · exact b j (by simp; omega) hj2
  | case3 waited ts hlt =>
    intro hw hts
    rw [waitUntilLiveAux]
    rw [dif_neg hlt]
    refine ⟨hts, ?_, ?_⟩
    · intro htrue; simp at htrue
    · intro _
      constructor
      · simp only []; rw [← hw]; omega
      · intro j hj1 hj2; simp at hj2; omega

/-- Invariant of the `wait_for_reconnect` loop: same shape, but probe `j` is
recorded at time `(j + 1) * check_interval` because the loop sleeps before
each probe. -/
lemma waitForReconnectAux_spec (probe : Nat → Bool) (G c : Int) (h : 0 < c) :
    ∀ (waited : Int) (ts : List Int),
    waited = (ts.length : Int) * c →
    (∀ j, j < ts.length → ts[j]? = some (((j : Int) + 1) * c)) →
    (∀ j, j < ((waitForReconnectAux probe G c h waited ts).2).length →
        ((waitForReconnectAux probe G c h waited ts).2)[j]? = some (((j : Int) + 1) * c)) ∧
    ((waitForReconnectAux probe G c h waited ts).1 = true →
        0 < ((waitForReconnectAux probe G c h waited ts).2).length ∧
        probe (((waitForReconnectAux probe G c h waited ts).2).length - 1) = true ∧
        ∀ j, ts.length ≤ j → j + 1 < ((waitForReconnectAux probe G c h waited ts).2).length →
          probe j = false) ∧
    ((waitForReconnectAux probe G c h waited ts).1 = false →
        G ≤ (((waitForReconnectAux probe G c h waited ts).2).length : Int) * c ∧
        ∀ j, ts.length ≤ j → j < ((waitForReconnectAux probe G c h waited ts).2).length →
          probe j = false) := by
  intro waited ts
  induction waited, ts using waitForReconnectAux.induct probe G c h with
  | case1 waited ts hlt hp =>
    intro hw hts
    rw [waitForReconnectAux]
    rw [dif_pos hlt, if_pos hp]
    refine ⟨?_, ?_, ?_⟩
    · refine snoc_getElem ts (waited + c) (fun j => ((j : Int) + 1) * c) hts ?_
      rw [hw]; ring
    · intro _
      refine ⟨by simp, ?_, ?_⟩
      · simpa using hp
      · intro j hj1 hj2
        simp only [List.length_append, List.length_cons, List.length_nil] at hj2
        omega
    · intro hfalse; simp at hfalse
  | case2 waited ts hlt hp ih =>
    intro hw hts
    rw [waitForReconnectAux]
    rw [dif_pos hlt, if_neg hp]
    have hw' : waited + c = ((ts ++ [waited + c]).length : Int) * c := by
      simp only [List.length_append, List.length_cons, List.length_nil]
      push_cast
      linarith [hw]
    have hts' : ∀ j, j < (ts ++ [waited + c]).length →
        (ts ++ [waited + c])[j]? = some (((j : Int) + 1) * c) := by
      refine snoc_getElem ts (waited + c) (fun j => ((j : Int) + 1) * c) hts ?_
      rw [hw]; ring
    obtain ⟨ih1, ih2, ih3⟩ := ih hw' hts'
    refine ⟨ih1, ?_, ?_⟩
    · intro htrue
      obtain ⟨a, b, cc⟩ := ih2 htrue
      refine ⟨a, b, ?_⟩
      intro j hj1 hj2
      rcases Nat.eq_or_lt_of_le hj1 with hj' | hj'
      · subst hj'; simpa using hp
      · exact cc j (by simp; omega) hj2
    · intro hfalse
      obtain ⟨a, b⟩ := ih3 hfalse
      refine ⟨a, ?_⟩
      intro j hj1 hj2
      rcases Nat.eq_or_lt_of_le hj1 with hj' | hj'
      · subst hj'; simpa using hp
      · exact b j (by simp; omega) hj2
  | case3 waited ts hlt =>
    intro hw hts
    rw [waitForReconnectAux]
    rw [dif_neg hlt]
    refine ⟨hts, ?_, ?_⟩
    · intro htrue; simp at htrue
    · intro _
      constructor
      · simp only []; rw [← hw]; omega
      · intro j hj1 hj2; simp at hj2; omega

/-! ## Claim theorems for stream.py -/

/-- C7: `wait_until_live` probes immediately at t=0 and then every `interval`
seconds, returns true at the first probe that succeeds, and returns false once
`timeout` seconds of waiting have accumulated with no successful probe; in
particular with timeout=90 and interval=30 against an oracle live on the 3rd
call it probes at t=0, 30, 60 and returns true. -/
theorem wait_until_live_probe_schedule :
    (∀ (probe : Nat → Bool) (T i : Int) (hpos : 0 < i) (b : Bool) (ts : List Int),
      wait_until_live probe T i hpos = (b, ts) →
      (∀ j, j < ts.length → ts[j]? = some ((j : Int) * i)) ∧
      (b = true → 0 < ts.length ∧ probe (ts.length - 1) = true ∧
        ∀ j, j + 1 < ts.length → probe j = false) ∧
      (b = false → T ≤ (ts.length : Int) * i ∧ ∀ j, j < ts.length → probe j = false)) ∧
    wait_until_live (fun k => decide (k = 2)) 90 30 (by decide) = (true, [0, 30, 60]) := by
  constructor
  · intro probe T i hpos b ts heq
    have hspec := waitUntilLiveAux_spec probe T i hpos 0 [] (by simp) (by simp)
    rw [wait_until_live] at heq
    rw [heq] at hspec
    obtain ⟨h1, h2, h3⟩ := hspec
    refine ⟨h1, ?_, ?_⟩
    · intro hb
      obtain ⟨a, b', c⟩ := h2 hb
      exact ⟨a, b', fun j hj => c j (Nat.zero_le j) hj⟩
    · intro hb
      obtain ⟨a, b'⟩ := h3 hb
      exact ⟨a, fun j hj => b' j (Nat.zero_le j) hj⟩
  · rw [wait_until_live]
    rw [waitUntilLiveAux]; norm_num
    rw [waitUntilLiveAux]; norm_num
    rw [waitUntilLiveAux]; norm_num

/-- Witness for C7: the concrete scenario of the claim — timeout 90,
interval 30, oracle live on its 3rd call — instantiates the theorem: the
probe indexed by the last recorded probe time succeeded. -/
theorem wait_until_live_probe_schedule_witness :
    (fun k => decide (k = 2)) (([0, 30, 60] : List Int).length - 1) = true := by
  have h := wait_until_live_probe_schedule
  exact ((h.1 (fun k => decide (k = 2)) 90 30 (by decide) true [0, 30, 60] h.2).2.1 rfl).2.1

/-- C8: `wait_for_reconnect` sleeps one full `check_interval` before its first
probe and then probes every `check_interval` seconds until a probe succeeds
(returning true) or `grace_period` seconds of waiting have accumulated
(returning false); with grace_period=60 and check_interval=20 against a
never-live oracle it probes exactly 3 times, the first no earlier than t=20s,
and returns false after the full 60s. -/
theorem wait_for_reconnect_probe_schedule :
    (∀ (probe : Nat → Bool) (G c : Int) (hpos : 0 < c) (b : Bool) (ts : List Int),
      wait_for_reconnect probe G c hpos = (b, ts) →
      (∀ j, j < ts.length → ts[j]? = some (((j : Int) + 1) * c)) ∧
      (b = true → 0 < ts.length ∧ probe (ts.length - 1) = true ∧
        ∀ j, j + 1 < ts.length → probe j = false) ∧
      (b = false → G ≤ (ts.length : Int) * c ∧ ∀ j, j < ts.length → probe j = false)) ∧
    wait_for_reconnect (fun _ => false) 60 20 (by decide) = (false, [20, 40, 60]) := by
  constructor
  · intro probe G c hpos b ts heq
    have hspec := waitForReconnectAux_spec probe G c hpos 0 [] (by simp) (by simp)
    rw [wait_for_reconnect] at heq
    rw [heq] at hspec
    obtain ⟨h1, h2, h3⟩ := hspec
    refine ⟨h1, ?_, ?_⟩
    · intro hb
      obtain ⟨a, b', cc⟩ := h2 hb
      exact ⟨a, b', fun j hj => cc j (Nat.zero_le j) hj⟩
    · intro hb
      obtain ⟨a, b'⟩ := h3 hb
      exact ⟨a, fun j hj => b' j (Nat.zero_le j) hj⟩
  · rw [wait_for_reconnect]
    rw [waitForReconnectAux]; norm_num
    rw [waitForReconnectAux]; norm_num
    rw [waitForReconnectAux]; norm_num
    rw [waitForReconnectAux]; norm_num

/-- Witness for C8: the concrete scenario of the claim — grace 60, interval
20, never-live oracle — instantiates the theorem: the first recorded probe
time is 20, i.e. no earlier than one full check interval. -/
theorem wait_for_reconnect_probe_schedule_witness :
    ([20, 40, 60] : List Int)[0]? = some (((0 : Int) + 1) * 20) := by
  have h := wait_for_reconnect_probe_schedule
  exact (h.1 (fun _ => false) 60 20 (by decide) false [20, 40, 60] h.2).1 0 (by decide)

/-- C9: `is_live` returns true exactly when the requested quality or the
quality "best" is among the available streams, and any exception from the
underlying stream lookup yields false rather than propagating. -/
theorem is_live_quality_or_best :
    (∀ (streams : List String) (quality : String),
      (is_live (Except.ok streams) quality = true ↔ quality ∈ streams ∨ "best" ∈ streams)) ∧
    (∀ (e : String) (quality : String), is_live (Except.error e) quality = false) := by
  constructor
  · intro streams quality
    simp [is_live]
  · intro e quality
    rfl

/-- C10: for every timeout ≤ 0, `wait_until_live` returns false without
invoking the liveness probe even once — the probe-time trace is empty —
regardless of what the probe would have answered. -/
theorem wait_until_live_nonpositive_timeout
    (probe : Nat → Bool) (T i : Int) (hpos : 0 < i) (hT : T ≤ 0) :
    wait_until_live probe T i hpos = (false, []) := by
  rw [wait_until_live]
  rw [waitUntilLiveAux]
  rw [dif_neg (by omega : ¬ (0 : Int) < T)]

/-- Witness for C10: a zero timeout with an always-live oracle still reports
not-live with zero probes. -/
theorem wait_until_live_nonpositive_timeout_witness :
    wait_until_live (fun _ => true) 0 1 (by decide) = (false, []) :=
  wait_until_live_nonpositive_timeout (fun _ => true) 0 1 (by decide) (by decide)

/-! ## recorder.py -/

/-- Python's `f"{n:02d}"`: decimal rendering, zero-padded to width 2. -/
def pad2 (n : Nat) : String :=
  if n < 10 then "0" ++ toString n else toString n

/-- `RecordingSession.next_segment_path` (recorder.py lines 41–43):
`{output_dir}/{session_id}_part{NN}.ts` with `NN = len(segments) + 1`,
where `session_id = f"{channel}_{date}"`. -/
def next_segment_path (output_dir session_id : String) (segments : List String) : String :=
  output_dir ++ "/" ++ session_id ++ "_part" ++ pad2 (segments.length + 1) ++ ".ts"

/-- The canonical name of accepted segment number `n` (1-based). -/
def seg_name (output_dir session_id : String) (n : Nat) : String :=
  output_dir ++ "/" ++ session_id ++ "_part" ++ pad2 n ++ ".ts"

lemma next_segment_path_eq_seg_name (od sid : String) (segs : List String) :
    next_segment_path od sid segs = seg_name od sid (segs.length + 1) := rfl

/-- Observable result of one streamlink invocation in `record_segment`:
either the subprocess call raised `FileNotFoundError` (streamlink binary
missing; the code's generic `except Exception` branch behaves identically),
or the tool ran and left the destination file in state `st`
(`none` = no file, `some n` = file of `n` bytes). -/
inductive CaptureResult where
  | toolMissing : CaptureResult
  | wrote : Option Nat → CaptureResult
deriving DecidableEq

/-- Result of `RecordingSession.record_segment`: the returned value, the
filesystem afterwards, and the updated `self.segments`. -/
structure RecOut where
  result : Option String
  fs : FS
  segments : List String

/-- `RecordingSession.record_segment` (recorder.py lines 47–91).  On
`FileNotFoundError` it returns `None` before any validation; otherwise it
validates the destination: missing or zero-size files are unlinked and
discarded (`None`, no slot consumed), a non-empty file is appended to
`self.segments` and its path returned. -/
def record_segment (output_dir session_id : String) (res : CaptureResult)
    (fs : FS) (segments : List String) : RecOut :=
  let segment_path := next_segment_path output_dir session_id segments
  match res with
  | CaptureResult.toolMissing => ⟨none, fs, segments⟩
  | CaptureResult.wrote st =>
    let fs1 : FS := fun q => if q = segment_path then st else fs q
    match st with
    | none => ⟨none, unlink fs1 segment_path, segments⟩
    | some n =>
      if 0 < n then ⟨some segment_path, fs1, segments ++ [segment_path]⟩
      else ⟨none, unlink fs1 segment_path, segments⟩

/-- Which `break` ended the `while True` loop of `RecordingSession.run`:
the max-reconnections branch (lines 100–105) or the stream-ended branch
(lines 121–123). -/
inductive EndCause where
  | budgetExhausted : EndCause
  | streamEnded : EndCause
deriving DecidableEq

/-- Observable outcome of `RecordingSession.run`: final `self.segments`,
filesystem, final `self.reconnect_count`, how many times
`wait_for_reconnect` was called, how many capture attempts
(`record_segment` calls) were made, and which branch ended the loop. -/
structure RunOutcome where
  segments : List String
  fs : FS
  reconnect_count : Nat
  wait_calls : Nat
  capture_attempts : Nat
  cause : EndCause

/-- The `while True` loop of `RecordingSession.run` (recorder.py lines
95–123).  `captures k` is the observable result of the `k`-th streamlink
invocation, `reconnect k` the result of the `wait_for_reconnect` call after
attempt `k`.  The loop's test `reconnect_count >= max_reconnects` is
expressed as `budget = 0` where `budget = max_reconnects - reconnect_count`;
`run` starts with `reconnect_count = 0` and `budget = max_reconnects`, and
each confirmed reconnect increments the counter and decrements the budget,
so the two formulations coincide on every reachable state. -/
def runAux (output_dir session_id : String) (captures : Nat → CaptureResult)
    (reconnect : Nat → Bool) (attempt waits : Nat) (segments : List String)
    (fs : FS) (rc : Nat) (budget : Nat) : RunOutcome :=
  let r := record_segment output_dir session_id (captures attempt) fs segments
  match budget with
  | 0 => ⟨r.segments, r.fs, rc, waits, attempt + 1, EndCause.budgetExhausted⟩
  | b + 1 =>
    if reconnect attempt then
      runAux output_dir session_id captures reconnect (attempt + 1) (waits + 1)
        r.segments r.fs (rc + 1) b
    else ⟨r.segments, r.fs, rc, waits + 1, attempt + 1, EndCause.streamEnded⟩

/-- `RecordingSession.run`: `segments = []`, `reconnect_count = 0` at start
(recorder.py lines 23–24), then the loop. -/
def run (output_dir session_id : String) (captures : Nat → CaptureResult)
    (reconnect : Nat → Bool) (max_reconnects : Nat) (fs : FS) : RunOutcome :=
  runAux output_dir session_id captures reconnect 0 0 [] fs 0 max_reconnects

/-! ## Helper lemmas for the session loop -/

/-- With always-confirmed reconnects, the loop exhausts its budget exactly:
one extra attempt, reconnect and wait per unit of budget, ending in the
max-reconnections branch. -/
lemma runAux_always_reconnect (od sid : String) (captures : Nat → CaptureResult) :
    ∀ (budget attempt waits rc : Nat) (segs : List String) (fs : FS),
    (runAux od sid captures (fun _ => true) attempt waits segs fs rc budget).capture_attempts
        = attempt + budget + 1 ∧
    (runAux od sid captures (fun _ => true) attempt waits segs fs rc budget).reconnect_count
        = rc + budget ∧
    (runAux od sid captures (fun _ => true) attempt waits segs fs rc budget).wait_calls
        = waits + budget ∧
    (runAux od sid captures (fun _ => true) attempt waits segs fs rc budget).cause
        = EndCause.budgetExhausted := by
  intro budget
  induction budget with
  | zero => intro attempt waits rc segs fs; simp [runAux]
  | succ b ih =>
    intro attempt waits rc segs fs
    rw [runAux]
    rw [if_pos (rfl : ((fun _ : Nat => true) attempt) = true)]
    obtain ⟨h1, h2, h3, h4⟩ := ih (attempt + 1) (waits + 1) (rc + 1)
      (record_segment od sid (captures attempt) fs segs).segments
      (record_segment od sid (captures attempt) fs segs).fs
    refine ⟨by rw [h1]; omega, by rw [h2]; omega, by rw [h3]; omega, h4⟩

/-- The reconnect counter never decreases, and it rises by exactly one per
capture attempt beyond the first — i.e. by one per confirmed reconnect,
since every re-entry into capturing follows one confirmed reconnect. -/
lemma runAux_rc_attempts (od sid : String) (captures : Nat → CaptureResult)
    (reconnect : Nat → Bool) :
    ∀ (budget attempt waits rc : Nat) (segs : List String) (fs : FS),
    rc ≤ (runAux od sid captures reconnect attempt waits segs fs rc budget).reconnect_count ∧
    (runAux od sid captures reconnect attempt waits segs fs rc budget).reconnect_count
        + attempt + 1
      = rc + (runAux od sid captures reconnect attempt waits segs fs rc budget).capture_attempts := by
  intro budget
  induction budget with
  | zero => intro attempt waits rc segs fs; simp [runAux]; omega
  | succ b ih =>
    intro attempt waits rc segs fs
    rw [runAux]
    by_cases hr : reconnect attempt = true
    · rw [if_pos hr]
      obtain ⟨h1, h2⟩ := ih (attempt + 1) (waits + 1) (rc + 1)
        (record_segment od sid (captures attempt) fs segs).segments
        (record_segment od sid (captures attempt) fs segs).fs
    
      exact ⟨by omega, by omega⟩
    · rw [if_neg hr]
      constructor
      · simp
      · simp; omega

/-- `record_segment` either leaves `self.segments` unchanged or appends the
next deterministic segment path. -/
lemma record_segment_segments_cases (od sid : String) (res : CaptureResult)
    (fs : FS) (segs : List String) :
    (record_segment od sid res fs segs).segments = segs ∨
    (record_segment od sid res fs segs).segments = segs ++ [next_segment_path od sid segs] := by
  cases res with
  | toolMissing => left; rfl
  | wrote st =>
    cases st with
    | none => left; rfl
    | some n =>
      by_cases hn : 0 < n
      · right; simp [record_segment, if_pos hn]
      · left; simp [record_segment, if_neg hn]

/-- A segment list is canonical when slot `i` holds the `(i+1)`-th
deterministic segment name: numbering is 1-based, dense, increasing. -/
def Canon (od sid : String) (segs : List String) : Prop :=
  ∀ i, i < segs.length → segs[i]? = some (seg_name od sid (i + 1))

lemma record_segment_canon (od sid : String) (res : CaptureResult)
    (fs : FS) (segs : List String) (h : Canon od sid segs) :
    Canon od sid (record_segment od sid res fs segs).segments := by
  rcases record_segment_segments_cases od sid res fs segs with he | he <;> rw [he]
  · exact h
  · exact snoc_getElem segs (next_segment_path od sid segs)
      (fun i => seg_name od sid (i + 1)) h rfl

lemma runAux_canon (od sid : String) (captures : Nat → CaptureResult)
    (reconnect : Nat → Bool) :
    ∀ (budget attempt waits rc : Nat) (segs : List String) (fs : FS),
    Canon od sid segs →
    Canon od sid (runAux od sid captures reconnect attempt waits segs fs rc budget).segments := by
  intro budget
  induction budget with
  | zero =>
    intro attempt waits rc segs fs h
    exact record_segment_canon od sid (captures attempt) fs segs h
  | succ b ih =>
    intro attempt waits rc segs fs h
    rw [runAux]
    by_cases hr : reconnect attempt = true
    · rw [if_pos hr]
      exact ih (attempt + 1) (waits + 1) (rc + 1) _ _
        (record_segment_canon od sid (captures attempt) fs segs h)
    · rw [if_neg hr]
      exact record_segment_canon od sid (captures attempt) fs segs h

/-- Replace a tool-missing capture result by "tool ran, produced no file":
the two are indistinguishable to the session loop. -/
def emptyLike : CaptureResult → CaptureResult
  | CaptureResult.toolMissing => CaptureResult.wrote none
  | r => r

lemma record_segment_segments_emptyLike (od sid : String) (res : CaptureResult)
    (fs fs' : FS) (segs : List String) :
    (record_segment od sid (emptyLike res) fs' segs).segments
      = (record_segment od sid res fs segs).segments := by
  cases res with
  | toolMissing => rfl
  | wrote st => cases st with
    | none => rfl
    | some n => by_cases hn : 0 < n <;> simp [emptyLike, record_segment, hn]

lemma runAux_emptyLike (od sid : String) (captures : Nat → CaptureResult)
    (reconnect : Nat → Bool) :
    ∀ (budget attempt waits rc : Nat) (segs : List String) (fs fs' : FS),
    (runAux od sid (fun k => emptyLike (captures k)) reconnect attempt waits segs fs' rc budget).segments
        = (runAux od sid captures reconnect attempt waits segs fs rc budget).segments ∧
    (runAux od sid (fun k => emptyLike (captures k)) reconnect attempt waits segs fs' rc budget).reconnect_count
        = (runAux od sid captures reconnect attempt waits segs fs rc budget).reconnect_count ∧
    (runAux od sid (fun k => emptyLike (captures k)) reconnect attempt waits segs fs' rc budget).wait_calls
        = (runAux od sid captures reconnect attempt waits segs fs rc budget).wait_calls ∧
    (runAux od sid (fun k => emptyLike (captures k)) reconnect attempt waits segs fs' rc budget).capture_attempts
        = (runAux od sid captures reconnect attempt waits segs fs rc budget).capture_attempts ∧
    (runAux od sid (fun k => emptyLike (captures k)) reconnect attempt waits segs fs' rc budget).cause
        = (runAux od sid captures reconnect attempt waits segs fs rc budget).cause := by
  intro budget
  induction budget with
  | zero =>
    intro attempt waits rc segs fs fs'
    refine ⟨?_, rfl, rfl, rfl, rfl⟩
    exact record_segment_segments_emptyLike od sid (captures attempt) fs fs' segs
  | succ b ih =>
    intro attempt waits rc segs fs fs'
    rw [runAux, runAux]
    by_cases hr : reconnect attempt = true
    · rw [if_pos hr, if_pos hr]
      have hseg := record_segment_segments_emptyLike od sid (captures attempt) fs fs' segs
      rw [hseg]
      exact ih (attempt + 1) (waits + 1) (rc + 1)
        (record_segment od sid (captures attempt) fs segs).segments
        (record_segment od sid (captures attempt) fs segs).fs
        (record_segment od sid (emptyLike (captures attempt)) fs' segs).fs
    · rw [if_neg hr, if_neg hr]
      refine ⟨?_, rfl, rfl, rfl, rfl⟩
      exact record_segment_segments_emptyLike od sid (captures attempt) fs fs' segs

/-! ## Claim theorems for recorder.py -/

/-- C4: for every configured `max_reconnects = M`, if `wait_for_reconnect`
always reports the stream returned, `RecordingSession.run` performs exactly
`M + 1` capture attempts and exactly `M` reconnect waits, and terminates via
the budget branch with the reconnect counter equal to `M` (the counter starts
at 0 in `run`); moreover, over any oracles, the counter never decreases and
rises by exactly one per capture attempt after the first, i.e. one per
confirmed reconnect. -/
theorem run_reconnect_budget :
    (∀ (od sid : String) (captures : Nat → CaptureResult) (M : Nat) (fs : FS),
      (run od sid captures (fun _ => true) M fs).capture_attempts = M + 1 ∧
      (run od sid captures (fun _ => true) M fs).reconnect_count = M ∧
      (run od sid captures (fun _ => true) M fs).wait_calls = M ∧
      (run od sid captures (fun _ => true) M fs).cause = EndCause.budgetExhausted) ∧
    (∀ (od sid : String) (captures : Nat → CaptureResult) (reconnect : Nat → Bool)
        (budget attempt waits rc : Nat) (segs : List String) (fs : FS),
      rc ≤ (runAux od sid captures reconnect attempt waits segs fs rc budget).reconnect_count ∧
      (runAux od sid captures reconnect attempt waits segs fs rc budget).reconnect_count
          + attempt + 1
        = rc + (runAux od sid captures reconnect attempt waits segs fs rc budget).capture_attempts) := by
  constructor
  · intro od sid captures M fs
    obtain ⟨h1, h2, h3, h4⟩ := runAux_always_reconnect od sid captures M 0 0 0 [] fs
    exact ⟨by rw [run, h1]; omega, by rw [run, h2]; omega, by rw [run, h3]; omega,
      by rw [run]; exact h4⟩
  · intro od sid captures reconnect budget attempt waits rc segs fs
    exact runAux_rc_attempts od sid captures reconnect budget attempt waits rc segs fs

/-- C2 counterexample: the claim "a tool-unavailable report terminates the
session immediately — no reconnect wait is entered and no further capture
attempt is made" is false on the code.  With the capture tool missing on
every attempt, `max_reconnects = 1` and a reconnect oracle that confirms the
stream returned, the session enters one reconnect wait and makes a second
capture attempt before ending — in the same budget-exhausted branch as a
normal session. -/
theorem tool_unavailable_session_continues :
    (run "d" "c" (fun _ => CaptureResult.toolMissing) (fun _ => true) 1
      (fun _ => none)).wait_calls = 1 ∧
    (run "d" "c" (fun _ => CaptureResult.toolMissing) (fun _ => true) 1
      (fun _ => none)).capture_attempts = 2 ∧
    (run "d" "c" (fun _ => CaptureResult.toolMissing) (fun _ => true) 1
      (fun _ => none)).cause = EndCause.budgetExhausted :=
  ⟨rfl, rfl, rfl⟩

/-- C2 amended: a tool-unavailable report makes `record_segment` return
`None` with no segment accepted and the filesystem untouched, and the session
loop then treats the attempt exactly like an empty capture: it proceeds to
the budget check and reconnect wait, and its entire observable outcome
(accepted segments, reconnect counter, wait calls, capture attempts and
terminal branch) is identical to a run in which the tool had run and produced
nothing — there is no immediate termination and no distinct
"tool unavailable" cause. -/
theorem tool_unavailable_acts_as_empty_attempt :
    (∀ (od sid : String) (fs : FS) (segs : List String),
      record_segment od sid CaptureResult.toolMissing fs segs
        = ⟨none, fs, segs⟩) ∧
    (∀ (od sid : String) (captures : Nat → CaptureResult) (reconnect : Nat → Bool)
        (M : Nat) (fs fs' : FS),
      (run od sid (fun k => emptyLike (captures k)) reconnect M fs').segments
          = (run od sid captures reconnect M fs).segments ∧
      (run od sid (fun k => emptyLike (captures k)) reconnect M fs').reconnect_count
          = (run od sid captures reconnect M fs).reconnect_count ∧
      (run od sid (fun k => emptyLike (captures k)) reconnect M fs').wait_calls
          = (run od sid captures reconnect M fs).wait_calls ∧
      (run od sid (fun k => emptyLike (captures k)) reconnect M fs').capture_attempts
          = (run od sid captures reconnect M fs).capture_attempts ∧
      (run od sid (fun k => emptyLike (captures k)) reconnect M fs').cause
          = (run od sid captures reconnect M fs).cause) := by
  constructor
  · intro od sid fs segs; rfl
  · intro od sid captures reconnect M fs fs'
    exact runAux_emptyLike od sid captures reconnect M 0 0 0 [] fs fs'

/-- C3: a capture attempt's output path enters `self.segments` iff the file
exists with size > 0 when the capture ends; a rejected attempt consumes no
sequence slot and (when the tool ran at all) leaves no file at the attempt's
path; an accepted attempt appends exactly the next deterministic path with a
positive-size file behind it; consequently over any whole session run,
accepted segment names are dense and strictly increasing — slot `i` holds
segment number `i + 1`. -/
theorem segment_acceptance_and_density :
    (∀ (od sid : String) (res : CaptureResult) (fs : FS) (segs : List String),
      ((record_segment od sid res fs segs).result.isSome
        ↔ ∃ n, res = CaptureResult.wrote (some n) ∧ 0 < n) ∧
      ((record_segment od sid res fs segs).result = none →
        (record_segment od sid res fs segs).segments = segs ∧
        ∀ st, res = CaptureResult.wrote st →
          (record_segment od sid res fs segs).fs (next_segment_path od sid segs) = none) ∧
      (∀ p, (record_segment od sid res fs segs).result = some p →
        p = next_segment_path od sid segs ∧
        (record_segment od sid res fs segs).segments = segs ++ [p] ∧
        ∃ n, (record_segment od sid res fs segs).fs p = some n ∧ 0 < n)) ∧
    (∀ (od sid : String) (captures : Nat → CaptureResult) (reconnect : Nat → Bool)
        (M : Nat) (fs : FS) (i : Nat),
      i < (run od sid captures reconnect M fs).segments.length →
      ((run od sid captures reconnect M fs).segments)[i]?
        = some (seg_name od sid (i + 1))) := by
  constructor
  · intro od sid res fs segs
    refine ⟨?_, ?_, ?_⟩
    · cases res with
      | toolMissing => simp [record_segment]
      | wrote st => cases st with
        | none => simp [record_segment]
        | some n =>
          by_cases hn : 0 < n
          · simp [record_segment, hn]
          · simp [record_segment, hn]
    · intro hnone
      cases res with
      | toolMissing => exact ⟨rfl, by intro st hst; cases hst⟩
      | wrote st => cases st with
        | none => exact ⟨rfl, by intro st hst; cases hst; simp [record_segment, unlink]⟩
        | some n =>
          by_cases hn : 0 < n
          · simp [record_segment, hn] at hnone
          · refine ⟨by simp [record_segment, hn], ?_⟩
            intro st hst; cases hst
            simp [record_segment, hn, unlink]
    · intro p hp
      cases res with
      | toolMissing => simp [record_segment] at hp
      | wrote st => cases st with
        | none => simp [record_segment] at hp
        | some n =>
          by_cases hn : 0 < n
          · simp [record_segment, hn] at hp
            subst hp
            refine ⟨rfl, by simp [record_segment, hn], n, by simp [record_segment, hn], hn⟩
          · simp [record_segment, hn] at hp
  · intro od sid captures reconnect M fs i hi
    exact runAux_canon od sid captures reconnect M 0 0 0 [] fs
      (by intro j hj; simp at hj) i hi

/-- Witness for C3: the spec's example — two empty attempts, then a
successful one — applied to the theorem: the single accepted segment sits in
slot 0 and is numbered `part01`, not `part03`. -/
theorem segment_acceptance_and_density_witness :
    ((run "d" "c" (fun k => if k < 2 then CaptureResult.wrote none else CaptureResult.wrote (some 5))
        (fun _ => true) 2 (fun _ => none)).segments)[0]? = some "d/c_part01.ts" := by
  have h := (segment_acceptance_and_density.2 "d" "c"
    (fun k => if k < 2 then CaptureResult.wrote none else CaptureResult.wrote (some 5))
    (fun _ => true) 2 (fun _ => none) 0 (by decide))
  exact h.trans rfl

/-! ## postprocess.py -/

/-- An ffmpeg invocation, as observable by its command line: either the
single-file remux (`-i src -c copy -movflags +faststart dest -y`) or the
concat run (`-f concat -safe 0 -i list -c copy -movflags +faststart dest -y`),
where `concat` carries the paths referenced by the intermediate list file in
the exact order they were written. -/
inductive ToolCall where
  | remux : String → String → ToolCall
  | concat : List String → String → ToolCall
deriving DecidableEq

/-- `remux_single` (postprocess.py lines 13–19): the ffmpeg call it issues. -/
def remux_single (src dest : String) : ToolCall := ToolCall.remux src dest

/-- `merge_segments` (postprocess.py lines 22–48): writes one
`file '<seg>'` line per segment into the concat list file, iterating
`for seg in segments` — i.e. in list order — and issues the concat call on
that list.  (The temporary list file itself is created and removed inside
the function and is not a tracked path.) -/
def merge_segments (segments : List String) (dest : String) : ToolCall :=
  ToolCall.concat segments dest

/-- `cleanup` (postprocess.py lines 51–56): `unlink(missing_ok=True)` each
file in order. -/
def cleanup (files : List String) (fs : FS) : FS := files.foldl unlink fs

/-- Result of `postprocess`: the returned value, the filesystem afterwards,
and the ffmpeg invocations that were made. -/
structure PPOut where
  result : Option String
  fs : FS
  calls : List ToolCall

/-- The shared tail of `postprocess` (postprocess.py lines 84–92): run the
chosen ffmpeg call, then verify `success and final_path.exists() and
final_path.stat().st_size > 0`; on verified success optionally `cleanup` the
segments and return the final path, otherwise return `None` keeping the
original segment files.  `tool` abstracts `_run_ffmpeg` (lines 97–112):
reported success plus the subprocess's effect on the filesystem. -/
def verify_and_clean (segments : List String) (final_path : String) (clean : Bool)
    (call : ToolCall) (tool : ToolCall → FS → Bool × FS) (fs : FS) : PPOut :=
  let r := tool call fs
  if r.1 && existsPos r.2 final_path then
    ⟨some final_path, if clean then cleanup segments r.2 else r.2, [call]⟩
  else ⟨none, r.2, [call]⟩

/-- `postprocess` (postprocess.py lines 59–92): no segments → `None` with no
tool call; exactly one segment → `remux_single`; several segments with merge
enabled → `merge_segments`; several segments with merge disabled → return
`segments[0]` with no tool call; tool branches continue with the shared
verification tail. -/
def postprocess (segments : List String) (final_path : String)
    (merge clean : Bool) (tool : ToolCall → FS → Bool × FS) (fs : FS) : PPOut :=
  match segments with
  | [] => ⟨none, fs, []⟩
  | s :: rest =>
    if rest.isEmpty then
      verify_and_clean (s :: rest) final_path clean (remux_single s final_path) tool fs
    else if merge then
      verify_and_clean (s :: rest) final_path clean
        (merge_segments (s :: rest) final_path) tool fs
    else ⟨some s, fs, []⟩

/-! ## Helper lemmas for postprocess -/

lemma cleanup_apply (files : List String) (fs : FS) (q : String) :
    cleanup files fs q = if q ∈ files then none else fs q := by
  induction files generalizing fs with
  | nil => simp [cleanup]
  | cons f rest ih =>
    show cleanup rest (unlink fs f) q = _
    rw [ih]
    by_cases hq : q ∈ rest
    · simp [hq]
    · by_cases hf : q = f <;> simp [unlink, hq, hf]

lemma existsPos_eq_of_apply_eq {fs fs' : FS} {p : String} (h : fs p = fs' p) :
    existsPos fs p = existsPos fs' p := by
  unfold existsPos; rw [h]

/-- Behaviour of the shared verification tail, assuming the ffmpeg subprocess
does not modify the input segment files (it only reads them and writes the
destination) and the final artifact path is none of the segment paths: a
`None` result leaves every segment untouched, a segment can change (be
deleted) only when the final artifact verifies as existing and non-empty,
the result is `None` or the verified final path, and exactly the chosen
call was made. -/
lemma verify_and_clean_spec (segments : List String) (final_path : String)
    (clean : Bool) (call : ToolCall) (tool : ToolCall → FS → Bool × FS) (fs : FS)
    (hpres : ∀ g p, p ∈ segments → (tool call g).2 p = g p)
    (hfp : final_path ∉ segments) :
    ((verify_and_clean segments final_path clean call tool fs).result = none →
      ∀ p ∈ segments, (verify_and_clean segments final_path clean call tool fs).fs p = fs p) ∧
    (∀ p ∈ segments, (verify_and_clean segments final_path clean call tool fs).fs p ≠ fs p →
      existsPos (verify_and_clean segments final_path clean call tool fs).fs final_path = true) ∧
    ((verify_and_clean segments final_path clean call tool fs).result = none ∨
      ((verify_and_clean segments final_path clean call tool fs).result = some final_path ∧
        existsPos (verify_and_clean segments final_path clean call tool fs).fs final_path = true)) ∧
    (verify_and_clean segments final_path clean call tool fs).calls = [call] := by
  rw [verify_and_clean]
  by_cases hg : ((tool call fs).1 && existsPos (tool call fs).2 final_path) = true
  · rw [if_pos hg]
    have hver : existsPos (tool call fs).2 final_path = true :=
      (Bool.and_eq_true _ _ |>.mp hg).2
    have hfinal : (if clean = true then cleanup segments (tool call fs).2
        else (tool call fs).2) final_path = (tool call fs).2 final_path := by
      by_cases hc : clean = true
      · rw [if_pos hc, cleanup_apply, if_neg hfp]
      · rw [if_neg hc]
    refine ⟨?_, ?_, ?_, rfl⟩
    · intro hnone; cases hnone
    · intro p hp _
      show existsPos (if clean = true then cleanup segments (tool call fs).2
        else (tool call fs).2) final_path = true
      rw [existsPos_eq_of_apply_eq hfinal]
      exact hver
    · right
      refine ⟨rfl, ?_⟩
      show existsPos (if clean = true then cleanup segments (tool call fs).2
        else (tool call fs).2) final_path = true
      rw [existsPos_eq_of_apply_eq hfinal]
      exact hver
  · rw [if_neg hg]
    refine ⟨?_, ?_, Or.inl rfl, rfl⟩
    · intro _ p hp; exact hpres fs p hp
    · intro p hp hne; exact absurd (hpres fs p hp) hne

lemma verify_and_clean_calls (segments : List String) (final_path : String)
    (clean : Bool) (call : ToolCall) (tool : ToolCall → FS → Bool × FS) (fs : FS) :
    (verify_and_clean segments final_path clean call tool fs).calls = [call] := by
  rw [verify_and_clean]
  by_cases hg : ((tool call fs).1 && existsPos (tool call fs).2 final_path) = true
  · rw [if_pos hg]
  · rw [if_neg hg]

/-! ## Claim theorems for postprocess.py -/

/-- C1: for every non-empty segment list, `postprocess` deletes no input
segment unless the final artifact exists with size > 0 at verification time,
and in every failure branch (tool reported failure, or tool reported success
but the destination is missing/zero-byte) it returns `None` with all input
segments untouched on disk; whenever a tool was invoked, the outcome is
either that `None`-and-untouched failure or a verified artifact.  The
hypotheses record that the ffmpeg subprocess itself does not write to the
input segment paths and that the final artifact path is distinct from every
segment path (`.mp4` vs `.ts` in the real layout). -/
theorem postprocess_no_deletion_without_verified_artifact
    (segments : List String) (final_path : String) (merge clean : Bool)
    (tool : ToolCall → FS → Bool × FS) (fs : FS)
    (hne : segments ≠ [])
    (hpres : ∀ call g p, p ∈ segments → (tool call g).2 p = g p)
    (hfp : final_path ∉ segments) :
    ((postprocess segments final_path merge clean tool fs).result = none →
      ∀ p ∈ segments, (postprocess segments final_path merge clean tool fs).fs p = fs p) ∧
    (∀ p ∈ segments, (postprocess segments final_path merge clean tool fs).fs p ≠ fs p →
      existsPos (postprocess segments final_path merge clean tool fs).fs final_path = true) ∧
    ((postprocess segments final_path merge clean tool fs).calls ≠ [] →
      (postprocess segments final_path merge clean tool fs).result = none ∨
      ((postprocess segments final_path merge clean tool fs).result = some final_path ∧
        existsPos (postprocess segments final_path merge clean tool fs).fs final_path = true)) := by
  match segments with
  | [] => exact absurd rfl hne
  | s :: rest =>
    by_cases hrest : rest.isEmpty
    · have hspec := verify_and_clean_spec (s :: rest) final_path clean
        (remux_single s final_path) tool fs (fun g p hp => hpres _ g p hp) hfp
      simp only [postprocess, if_pos hrest]
      exact ⟨hspec.1, hspec.2.1, fun _ => hspec.2.2.1⟩
    · by_cases hm : merge
      · have hspec := verify_and_clean_spec (s :: rest) final_path clean
          (merge_segments (s :: rest) final_path) tool fs (fun g p hp => hpres _ g p hp) hfp
        simp only [postprocess, if_neg hrest, if_pos hm]
        exact ⟨hspec.1, hspec.2.1, fun _ => hspec.2.2.1⟩
      · simp only [postprocess, if_neg hrest, if_neg hm]
        refine ⟨?_, ?_, ?_⟩
        · intro hnone; cases hnone
        · intro p hp hne'; exact absurd rfl hne'
        · intro hc; exact absurd rfl hc

/-- Witness for C1: two segments, merge and delete-on-success enabled, but
the tool reports failure (leaving the filesystem as it was): the result is
`None` and both segment files still hold their original contents. -/
theorem postprocess_no_deletion_without_verified_artifact_witness :
    (postprocess ["a", "b"] "f" true true (fun _ g => (false, g))
      (fun q => if q = "a" then some 3 else if q = "b" then some 4 else none)).fs "a"
      = some 3 ∧
    (postprocess ["a", "b"] "f" true true (fun _ g => (false, g))
      (fun q => if q = "a" then some 3 else if q = "b" then some 4 else none)).fs "b"
      = some 4 := by
  have h := (postprocess_no_deletion_without_verified_artifact ["a", "b"] "f" true true
    (fun _ g => (false, g))
    (fun q => if q = "a" then some 3 else if q = "b" then some 4 else none)
    (by decide) (fun _ _ _ _ => rfl) (by decide)).1 rfl
  exact ⟨(h "a" (by simp)).trans (by decide), (h "b" (by simp)).trans (by decide)⟩

/-- C5: an empty segment list yields `None` with no tool invocation; exactly
one segment invokes the single-file remux (never concatenation); two or more
segments with merge enabled invoke exactly one concatenation whose list file
references the segments in their original list (capture-sequence) order. -/
theorem postprocess_tool_selection :
    (∀ (final_path : String) (merge clean : Bool) (tool : ToolCall → FS → Bool × FS) (fs : FS),
      postprocess [] final_path merge clean tool fs = ⟨none, fs, []⟩) ∧
    (∀ (s final_path : String) (merge clean : Bool) (tool : ToolCall → FS → Bool × FS) (fs : FS),
      (postprocess [s] final_path merge clean tool fs).calls
        = [remux_single s final_path]) ∧
    (∀ (a b : String) (rest : List String) (final_path : String) (clean : Bool)
        (tool : ToolCall → FS → Bool × FS) (fs : FS),
      (postprocess (a :: b :: rest) final_path true clean tool fs).calls
        = [merge_segments (a :: b :: rest) final_path]) := by
  refine ⟨fun _ _ _ _ _ => rfl, ?_, ?_⟩
  · intro s final_path merge clean tool fs
    exact verify_and_clean_calls [s] final_path clean (remux_single s final_path) tool fs
  · intro a b rest final_path clean tool fs
    exact verify_and_clean_calls (a :: b :: rest) final_path clean
      (merge_segments (a :: b :: rest) final_path) tool fs

/-- C6: with two or more segments and merge disabled, `postprocess` makes no
tool call, deletes nothing (the filesystem is returned unchanged), and
returns the first segment's path — even when delete-on-success is enabled
(`clean` is arbitrary). -/
theorem postprocess_merge_disabled :
    ∀ (a b : String) (rest : List String) (final_path : String) (clean : Bool)
      (tool : ToolCall → FS → Bool × FS) (fs : FS),
      postprocess (a :: b :: rest) final_path false clean tool fs
        = ⟨some a, fs, []⟩ := by
  intro a b rest final_path clean tool fs
  rfl
